import Mathlib

/-!
Verification of `src/color_generator.py` (tomglynch/colourise).

The Python module is shallowly embedded over the real numbers: every
numeric formula of the source is translated literally (thresholds,
matrix coefficients, gamma exponents), Python's `round` is modelled as
round-half-to-even on exact reals, and hex strings are modelled over
Lean `String`s with the standard hex-digit value map (CPython's
`int(s, 16)` / `f"{v:02x}"`, which are not part of the repository).
The stochastic candidate draw of `generate_distinct_colors`
(source lines 149-169) is abstracted as an arbitrary per-attempt LAB
sample `sample : ℕ → ℝ × ℝ × ℝ`, since every claim about the loop is
quantified over every random stream; the rest of the loop (source
lines 147-202) is embedded step for step.
-/

namespace ColorGenerator

noncomputable section

/-- Python's built-in `round` on exact reals: round half to even. -/
def pyRound (x : ℝ) : ℤ :=
  if x - ⌊x⌋ < 1/2 then ⌊x⌋
  else if 1/2 < x - ⌊x⌋ then ⌊x⌋ + 1
  else if Even ⌊x⌋ then ⌊x⌋ else ⌊x⌋ + 1

/-- sRGB gamma expansion used by `rgb_to_xyz`, threshold 0.04045 (source lines 11-13). -/
def srgbExpand (v : ℝ) : ℝ :=
  if v > 0.04045 then ((v + 0.055) / 1.055) ^ (2.4 : ℝ) else v / 12.92

/-- `rgb_to_xyz` (source lines 4-20). -/
def rgb_to_xyz (r g b : ℝ) : ℝ × ℝ × ℝ :=
  let r := srgbExpand (r / 255)
  let g := srgbExpand (g / 255)
  let b := srgbExpand (b / 255)
  let x := r * 0.4124564 + g * 0.3575761 + b * 0.1804375
  let y := r * 0.2126729 + g * 0.7151522 + b * 0.0721750
  let z := r * 0.0193339 + g * 0.1191920 + b * 0.9503041
  (x * 100, y * 100, z * 100)

/-- the helper `f` inside `xyz_to_lab` (source lines 32-33). -/
def labF (t : ℝ) : ℝ :=
  if t > 0.008856 then t ^ ((1 : ℝ)/3) else 7.787 * t + 16/116

/-- `xyz_to_lab` (source lines 22-43). -/
def xyz_to_lab (x y z : ℝ) : ℝ × ℝ × ℝ :=
  let fx := labF (x / 95.047)
  let fy := labF (y / 100.0)
  let fz := labF (z / 108.883)
  (116 * fy - 16, 500 * (fx - fy), 200 * (fy - fz))

/-- the helper `f_inv` inside `lab_to_xyz` (source lines 54-55). -/
def labFinv (t : ℝ) : ℝ :=
  if t > 0.206893 then t ^ (3 : ℕ) else (t - 16/116) / 7.787

/-- `lab_to_xyz` (source lines 45-61). -/
def lab_to_xyz (L a b : ℝ) : ℝ × ℝ × ℝ :=
  let fy := (L + 16) / 116
  let fx := a / 500 + fy
  let fz := fy - b / 200
  (95.047 * labFinv fx, 100.0 * labFinv fy, 108.883 * labFinv fz)

/-- the helper `to_srgb` inside `xyz_to_rgb` (source lines 75-76): the continuous
("pre-round") channel value. -/
def to_srgb (c : ℝ) : ℝ :=
  if c > 0.0031308 then 255 * (1.055 * c ^ ((1 : ℝ)/2.4) - 0.055) else 255 * 12.92 * c

/-- round-then-clamp discretization of one channel (source lines 78-80):
`max(0, min(255, round(to_srgb(c))))`. -/
def chan (c : ℝ) : ℤ := max 0 (min 255 (pyRound (to_srgb c)))

/-- linear red channel of `xyz_to_rgb` after the division by 100 (source lines 65-70). -/
def rLin (x y z : ℝ) : ℝ := (x/100) * 3.2404542 - (y/100) * 1.5371385 - (z/100) * 0.4985314

/-- linear green channel of `xyz_to_rgb` (source line 71). -/
def gLin (x y z : ℝ) : ℝ := -(x/100) * 0.9692660 + (y/100) * 1.8760108 + (z/100) * 0.0415560

/-- linear blue channel of `xyz_to_rgb` (source line 72). -/
def bLin (x y z : ℝ) : ℝ := (x/100) * 0.0556434 - (y/100) * 0.2040259 + (z/100) * 1.0572252

/-- `xyz_to_rgb` (source lines 63-82): integer channels, each rounded then clamped. -/
def xyz_to_rgb (x y z : ℝ) : ℤ × ℤ × ℤ :=
  (chan (rLin x y z), chan (gLin x y z), chan (bLin x y z))

/-- `lab_distance` (source lines 84-91): plain Euclidean distance in LAB space. -/
def lab_distance (lab1 lab2 : ℝ × ℝ × ℝ) : ℝ :=
  Real.sqrt ((lab2.1 - lab1.1)^2 + (lab2.2.1 - lab1.2.1)^2 + (lab2.2.2 - lab1.2.2)^2)

/-- the linearization inside `get_luminance`, threshold 0.03928 (source lines 217-219). -/
def lumLin (v : ℝ) : ℝ :=
  if v > 0.03928 then ((v + 0.055) / 1.055) ^ (2.4 : ℝ) else v / 12.92

/-- `get_luminance` inside `get_contrast_ratio` (source lines 210-222). -/
def get_luminance (r g b : ℝ) : ℝ :=
  0.2126 * lumLin (r / 255) + 0.7152 * lumLin (g / 255) + 0.0722 * lumLin (b / 255)

/-- the final ratio of `get_contrast_ratio` (source lines 235-238):
`(lighter + 0.05) / (darker + 0.05)`. -/
def ratioOfLum (l1 l2 : ℝ) : ℝ := (max l1 l2 + 0.05) / (min l1 l2 + 0.05)

/-- value of one hex digit character, as CPython's `int(s, 16)` reads it
(0-9, a-f, A-F); other characters are junk (CPython raises there). -/
def hexDigitVal (c : Char) : ℕ :=
  if 48 ≤ c.toNat ∧ c.toNat ≤ 57 then c.toNat - 48
  else if 97 ≤ c.toNat ∧ c.toNat ≤ 102 then c.toNat - 87
  else if 65 ≤ c.toNat ∧ c.toNat ≤ 70 then c.toNat - 55
  else 0

/-- `int(hex_color[i:i+2], 16)`: the two-digit hex number at position `i`. -/
def hexPair (cs : List Char) (i : ℕ) : ℕ :=
  16 * hexDigitVal (cs.getD i '0') + hexDigitVal (cs.getD (i+1) '0')

/-- `hex_to_rgb` inside `get_contrast_ratio` (source lines 225-227):
strip leading `#`, then read three two-digit hex channels. -/
def hex_to_rgb (s : String) : ℕ × ℕ × ℕ :=
  let cs := s.toList.dropWhile (· = '#')
  (hexPair cs 0, hexPair cs 2, hexPair cs 4)

/-- `get_contrast_ratio` (source lines 204-238). -/
def get_contrast_ratio (bg_color fg_color : String) : ℝ :=
  let bg := hex_to_rgb bg_color
  let fg := hex_to_rgb fg_color
  ratioOfLum (get_luminance bg.1 bg.2.1 bg.2.2) (get_luminance fg.1 fg.2.1 fg.2.2)

/-- a well-formed color string: leading `#`s stripped, exactly 6 hex digits
(the only inputs `hex_to_rgb` parses without raising in Python). -/
def hexWF (s : String) : Bool :=
  let cs := s.toList.dropWhile (· = '#')
  cs.length = 6 && cs.all fun c =>
    (48 ≤ c.toNat && c.toNat ≤ 57) || (97 ≤ c.toNat && c.toNat ≤ 102) ||
      (65 ≤ c.toNat && c.toNat ≤ 70)

/-- lowercase hex digits, as Python's `%x` formatting emits them. -/
def hexChar (k : ℕ) : Char :=
  "0123456789abcdef".toList.getD k '0'

/-- `rgb_to_hex` (source lines 93-95): `f"#{r:02x}{g:02x}{b:02x}"` for channels
in [0, 255]. -/
def rgb_to_hex (c : ℤ × ℤ × ℤ) : String :=
  let two := fun (v : ℤ) => String.mk [hexChar (v.toNat / 16), hexChar (v.toNat % 16)]
  "#" ++ two c.1 ++ two c.2.1 ++ two c.2.2

/-- the two canonical foregrounds (source lines 181-185). -/
inductive Fg where
  | white
  | black
  deriving DecidableEq

/-- hex string of a foreground, as the source stores it. -/
def fgHex : Fg → String
  | Fg.white => "#FFFFFF"
  | Fg.black => "#000000"

/-- the foreground selection rule, source line 185:
`"#FFFFFF" if fg_white > fg_black else "#000000"`. -/
def chooseForeground (fg_white fg_black : ℝ) : Fg :=
  if fg_white > fg_black then Fg.white else Fg.black

/-- one element of the accepted list `colors` (source line 194):
`(lab_color, rgb_color, foreground)`. -/
structure Entry where
  lab : ℝ × ℝ × ℝ
  rgb : ℤ × ℤ × ℤ
  fg : Fg

/-- auto-adjusted `min_distance` (source lines 114-120). -/
def auto_min_distance (n : ℤ) : ℝ :=
  if n ≤ 5 then 30 else if n ≤ 10 then 20 else max 10 (30 - ((n : ℝ) - 10))

/-- `is_valid_color` (source lines 127-144): gamut check on the already-clamped
integer channels, then distance (and, for `n ≤ 5`, contrast) against every
accepted color. -/
def is_valid_color (n : ℤ) (min_distance min_contrast : ℝ)
    (lab_color : ℝ × ℝ × ℝ) (rgb_color : ℤ × ℤ × ℤ) (colors : List Entry) : Bool :=
  if rgb_color.1 < 0 ∨ 255 < rgb_color.1 ∨ rgb_color.2.1 < 0 ∨ 255 < rgb_color.2.1 ∨
      rgb_color.2.2 < 0 ∨ 255 < rgb_color.2.2 then false
  else colors.all fun e =>
    decide (¬ lab_distance lab_color e.lab < min_distance ∧
      (n ≤ 5 → ¬ get_contrast_ratio (rgb_to_hex rgb_color) (rgb_to_hex e.rgb)
          < min_contrast))

/-- `max_attempts` (source line 111). -/
def max_attempts : ℕ := 10000

/-- `min_fg_contrast` (source line 189): `4.5 if n > 5 else 1.5`. -/
def min_fg_contrast (n : ℤ) : ℝ := if 5 < n then 4.5 else 1.5

/-- the sampling loop of `generate_distinct_colors` (source lines 147-196).
`fuel` is `max_attempts - attempts`, so `fuel = 0` is exactly the exit
condition `attempts == max_attempts`; `sample attempts` is the LAB candidate
the stochastic draw (source lines 149-169) produces on this attempt. Each
iteration converts the candidate LAB → XYZ → RGB, validates it, picks the
foreground, applies the foreground-contrast gate for `n ≤ 10` and appends on
acceptance; `attempts` grows by exactly one on every path through the body. -/
def genLoop (n : ℤ) (minD minC : ℝ) (sample : ℕ → ℝ × ℝ × ℝ) :
    ℕ → ℕ → List Entry → List Entry × ℕ
  | 0, attempts, colors => (colors, attempts)
  | fuel + 1, attempts, colors =>
    if (colors.length : ℤ) < n then
      let lab := sample attempts
      let xyz := lab_to_xyz lab.1 lab.2.1 lab.2.2
      let rgb := xyz_to_rgb xyz.1 xyz.2.1 xyz.2.2
      if is_valid_color n minD minC lab rgb colors then
        let bg_hex := rgb_to_hex rgb
        let fg_white := get_contrast_ratio bg_hex "#FFFFFF"
        let fg_black := get_contrast_ratio bg_hex "#000000"
        let foreground := chooseForeground fg_white fg_black
        if n ≤ 10 ∧ max fg_white fg_black < min_fg_contrast n then
          genLoop n minD minC sample fuel (attempts + 1) colors
        else
          genLoop n minD minC sample fuel (attempts + 1) (colors ++ [⟨lab, rgb, foreground⟩])
      else genLoop n minD minC sample fuel (attempts + 1) colors
    else (colors, attempts)

/-- the minimum LAB distance in effect: the supplied one, or the
auto-adjusted default (source lines 113-120). -/
def effective_min_distance (n : ℤ) (min_distance : Option ℝ) : ℝ :=
  match min_distance with
  | none => auto_min_distance n
  | some d => d

/-- the accepted list and final attempt count of `generate_distinct_colors`
(source lines 109-196), with `min_distance = none` standing for Python's
`None` default. -/
def genColors (n : ℤ) (min_distance : Option ℝ) (min_contrast : ℝ)
    (sample : ℕ → ℝ × ℝ × ℝ) : List Entry × ℕ :=
  genLoop n (effective_min_distance n min_distance) min_contrast sample max_attempts 0 []

/-- `generate_distinct_colors`'s return value (source line 202): hex pairs. -/
def generate_distinct_colors (n : ℤ) (min_distance : Option ℝ) (min_contrast : ℝ)
    (sample : ℕ → ℝ × ℝ × ℝ) : List (String × String) :=
  (genColors n min_distance min_contrast sample).1.map fun e => (rgb_to_hex e.rgb, fgHex e.fg)

/-- whether the source prints its under-fulfillment warning (source lines 198-199):
exactly when fewer than `n` colors were accepted. -/
def generate_warns (n : ℤ) (min_distance : Option ℝ) (min_contrast : ℝ)
    (sample : ℕ → ℝ × ℝ × ℝ) : Bool :=
  decide (((genColors n min_distance min_contrast sample).1.length : ℤ) < n)

/-- the relative luminance `get_contrast_ratio` computes for a hex string. -/
def lumOf (s : String) : ℝ :=
  get_luminance (hex_to_rgb s).1 (hex_to_rgb s).2.1 (hex_to_rgb s).2.2

/-- the RGB → XYZ → LAB → XYZ → RGB composition of the round-trip property
(source test `test_color_space_conversions`). -/
def round_trip (r g b : ℝ) : ℤ × ℤ × ℤ :=
  let xyz := rgb_to_xyz r g b
  let lab := xyz_to_lab xyz.1 xyz.2.1 xyz.2.2
  let xyz2 := lab_to_xyz lab.1 lab.2.1 lab.2.2
  xyz_to_rgb xyz2.1 xyz2.2.1 xyz2.2.2

/-! ### Basic facts about rounding, clamping and luminance -/

/-- whatever Python's round receives, after clamping the channel is in [0, 255]. -/
lemma chan_nonneg (c : ℝ) : 0 ≤ chan c := le_max_left _ _

lemma chan_le_255 (c : ℝ) : chan c ≤ 255 :=
  max_le (by norm_num) (min_le_left _ _)

/-- a real strictly within 1/2 of an integer rounds to that integer, for any
tie-breaking rule (ties never occur strictly inside the window). -/
lemma pyRound_eq (v : ℤ) (x : ℝ) (h : |x - v| < 1/2) : pyRound x = v := by
  rw [abs_lt] at h
  obtain ⟨h1, h2⟩ := h
  by_cases hx : (v : ℝ) ≤ x
  · have hfl : ⌊x⌋ = v := by
      rw [Int.floor_eq_iff]
      constructor
      · exact hx
      · push_cast; linarith
    unfold pyRound
    rw [hfl, if_pos]
    push_cast
    linarith
  · push_neg at hx
    have hfl : ⌊x⌋ = v - 1 := by
      rw [Int.floor_eq_iff]
      constructor
      · push_cast; linarith
      · push_cast; linarith
    unfold pyRound
    rw [hfl, if_neg, if_pos]
    · ring
    · push_cast; linarith
    · push_cast; linarith

/-- rounding then clamping recovers an integer in [0, 255] exactly when the
continuous value is strictly within 1/2 of it. -/
lemma chan_eq_of_close (v : ℤ) (hv0 : 0 ≤ v) (hv1 : v ≤ 255) (c : ℝ)
    (h : |to_srgb c - v| < 1/2) : chan c = v := by
  unfold chan
  rw [pyRound_eq v _ h, min_eq_right hv1, max_eq_right hv0]

lemma lumLin_nonneg (v : ℝ) (h0 : 0 ≤ v) : 0 ≤ lumLin v := by
  unfold lumLin
  split_ifs with h
  · exact Real.rpow_nonneg (by norm_num [div_nonneg]; linarith) _
  · positivity

lemma lumLin_le_one (v : ℝ) (h0 : 0 ≤ v) (h1 : v ≤ 1) : lumLin v ≤ 1 := by
  unfold lumLin
  split_ifs with h
  · exact Real.rpow_le_one (by positivity) (by rw [div_le_one (by norm_num)]; linarith)
      (by norm_num)
  · rw [div_le_one (by norm_num)]; linarith

lemma get_luminance_nonneg (r g b : ℝ) (hr : 0 ≤ r) (hg : 0 ≤ g) (hb : 0 ≤ b) :
    0 ≤ get_luminance r g b := by
  unfold get_luminance
  have h1 := lumLin_nonneg (r / 255) (by positivity)
  have h2 := lumLin_nonneg (g / 255) (by positivity)
  have h3 := lumLin_nonneg (b / 255) (by positivity)
  linarith

lemma get_luminance_le_one (r g b : ℝ) (hr0 : 0 ≤ r) (hr : r ≤ 255)
    (hg0 : 0 ≤ g) (hg : g ≤ 255) (hb0 : 0 ≤ b) (hb : b ≤ 255) :
    get_luminance r g b ≤ 1 := by
  unfold get_luminance
  have h1 := lumLin_le_one (r / 255) (by positivity) (by rw [div_le_one] <;> norm_num; linarith)
  have h2 := lumLin_le_one (g / 255) (by positivity) (by rw [div_le_one] <;> norm_num; linarith)
  have h3 := lumLin_le_one (b / 255) (by positivity) (by rw [div_le_one] <;> norm_num; linarith)
  have h4 := lumLin_nonneg (r / 255) (by positivity)
  have h5 := lumLin_nonneg (g / 255) (by positivity)
  have h6 := lumLin_nonneg (b / 255) (by positivity)
  linarith

/-- luminance of pure black is exactly 0. -/
lemma get_luminance_black : get_luminance 0 0 0 = 0 := by
  unfold get_luminance lumLin
  norm_num

/-- luminance of pure white is exactly 1: ((1 + 0.055)/1.055)^2.4 = 1^2.4 = 1. -/
lemma get_luminance_white : get_luminance 255 255 255 = 1 := by
  unfold get_luminance lumLin
  rw [if_pos (by norm_num)]
  have h : ((255 : ℝ) / 255 + 0.055) / 1.055 = 1 := by norm_num
  rw [h, Real.one_rpow]
  norm_num

lemma ratioOfLum_symm (l1 l2 : ℝ) : ratioOfLum l1 l2 = ratioOfLum l2 l1 := by
  unfold ratioOfLum
  rw [max_comm, min_comm]

lemma ratioOfLum_ge_one (l1 l2 : ℝ) (h1 : 0 ≤ l1) (h2 : 0 ≤ l2) :
    1 ≤ ratioOfLum l1 l2 := by
  unfold ratioOfLum
  rw [le_div_iff (by rcases min_cases l1 l2 with ⟨h, _⟩ | ⟨h, _⟩ <;> rw [h] <;> linarith)]
  have := min_le_max (a := l1) (b := l2)
  linarith

lemma ratioOfLum_le_21 (l1 l2 : ℝ) (h1 : 0 ≤ l1) (h1' : l1 ≤ 1) (h2 : 0 ≤ l2)
    (h2' : l2 ≤ 1) : ratioOfLum l1 l2 ≤ 21 := by
  unfold ratioOfLum
  rw [div_le_iff (by rcases min_cases l1 l2 with ⟨h, _⟩ | ⟨h, _⟩ <;> rw [h] <;> linarith)]
  have hmax : max l1 l2 ≤ 1 := max_le h1' h2'
  have hmin : 0 ≤ min l1 l2 := le_min h1 h2
  linarith

/-- both channels parsed from any string are at most 255. -/
lemma hexDigitVal_le (c : Char) : hexDigitVal c ≤ 15 := by
  unfold hexDigitVal
  split_ifs with h1 h2 h3 <;> omega

lemma hexPair_le (cs : List Char) (i : ℕ) : hexPair cs i ≤ 255 := by
  unfold hexPair
  have h1 := hexDigitVal_le (cs.getD i '0')
  have h2 := hexDigitVal_le (cs.getD (i+1) '0')
  omega

lemma lumOf_nonneg (s : String) : 0 ≤ lumOf s :=
  get_luminance_nonneg _ _ _ (by positivity) (by positivity) (by positivity)

lemma lumOf_le_one (s : String) : lumOf s ≤ 1 := by
  have h1 := hexPair_le (s.toList.dropWhile (· = '#')) 0
  have h2 := hexPair_le (s.toList.dropWhile (· = '#')) 2
  have h3 := hexPair_le (s.toList.dropWhile (· = '#')) 4
  refine get_luminance_le_one _ _ _ (by positivity) ?_ (by positivity) ?_ (by positivity) ?_
  · exact_mod_cast Nat.cast_le.mpr h1
  · exact_mod_cast Nat.cast_le.mpr h2
  · exact_mod_cast Nat.cast_le.mpr h3

lemma get_contrast_ratio_eq (A B : String) :
    get_contrast_ratio A B = ratioOfLum (lumOf A) (lumOf B) := rfl

/-! ### Claims C9, C10, C4: the contrast-ratio function -/

/-- Claim C9: for every pair of colors A and B, `get_contrast_ratio(A, B)`
equals `get_contrast_ratio(B, A)` — the formula takes the max and min of the
two luminances, so it is symmetric in its arguments. -/
theorem get_contrast_ratio_symm (A B : String)
    (hA : hexWF A = true) (hB : hexWF B = true) :
    get_contrast_ratio A B = get_contrast_ratio B A := by
  rw [get_contrast_ratio_eq, get_contrast_ratio_eq, ratioOfLum_symm]

theorem get_contrast_ratio_symm_witness :
    get_contrast_ratio "#ffffff" "#1a2b3c" = get_contrast_ratio "#1a2b3c" "#ffffff" :=
  get_contrast_ratio_symm "#ffffff" "#1a2b3c" (by decide) (by decide)

/-- Claim C10: for every pair of well-formed 6-hex-digit color strings,
`get_contrast_ratio` is total and well-defined: each relative luminance it
computes lies in [0, 1], so the denominator `darker + 0.05` is at least 0.05
(in particular nonzero) and the result is the stated quotient. -/
theorem get_contrast_ratio_total_well_defined (A B : String)
    (hA : hexWF A = true) (hB : hexWF B = true) :
    (0 ≤ lumOf A ∧ lumOf A ≤ 1) ∧ (0 ≤ lumOf B ∧ lumOf B ≤ 1) ∧
    0.05 ≤ min (lumOf A) (lumOf B) + 0.05 ∧
    min (lumOf A) (lumOf B) + 0.05 ≠ 0 ∧
    get_contrast_ratio A B =
      (max (lumOf A) (lumOf B) + 0.05) / (min (lumOf A) (lumOf B) + 0.05) := by
  have hA0 := lumOf_nonneg A
  have hB0 := lumOf_nonneg B
  have hmin : 0 ≤ min (lumOf A) (lumOf B) := le_min hA0 hB0
  refine ⟨⟨hA0, lumOf_le_one A⟩, ⟨hB0, lumOf_le_one B⟩, by linarith, by positivity, ?_⟩
  rw [get_contrast_ratio_eq]
  rfl

theorem get_contrast_ratio_total_well_defined_witness :
    (0 ≤ lumOf "#1a2b3c" ∧ lumOf "#1a2b3c" ≤ 1) ∧
    (0 ≤ lumOf "#ffffff" ∧ lumOf "#ffffff" ≤ 1) ∧
    0.05 ≤ min (lumOf "#1a2b3c") (lumOf "#ffffff") + 0.05 ∧
    min (lumOf "#1a2b3c") (lumOf "#ffffff") + 0.05 ≠ 0 ∧
    get_contrast_ratio "#1a2b3c" "#ffffff" =
      (max (lumOf "#1a2b3c") (lumOf "#ffffff") + 0.05) /
        (min (lumOf "#1a2b3c") (lumOf "#ffffff") + 0.05) :=
  get_contrast_ratio_total_well_defined "#1a2b3c" "#ffffff" (by decide) (by decide)

/-- Claim C4 counterexample: `get_contrast_ratio` of a color with itself is
exactly 1.0, not strictly greater than 1.0 — the claimed open lower bound
fails for equal colors. -/
theorem contrast_ratio_self_eq_one :
    get_contrast_ratio "#000000" "#000000" = 1 ∧
    ¬ 1 < get_contrast_ratio "#000000" "#000000" := by
  have hb : hex_to_rgb "#000000" = (0, 0, 0) := by decide
  have h : lumOf "#000000" = 0 := by
    unfold lumOf
    rw [hb]
    norm_num [get_luminance_black]
  have h1 : get_contrast_ratio "#000000" "#000000" = 1 := by
    rw [get_contrast_ratio_eq, h]
    unfold ratioOfLum
    norm_num
  exact ⟨h1, by rw [h1]; norm_num⟩

/-- Claim C4 as amended: for every pair of well-formed colors the ratio lies
in the closed range [1.0, 21.0] (1.0 is attained, e.g. by a color against
itself), and white against black gives exactly 21.0. -/
theorem contrast_ratio_range_and_extremes :
    (∀ A B : String, hexWF A = true → hexWF B = true →
      1 ≤ get_contrast_ratio A B ∧ get_contrast_ratio A B ≤ 21) ∧
    get_contrast_ratio "#FFFFFF" "#000000" = 21 := by
  constructor
  · intro A B hA hB
    rw [get_contrast_ratio_eq]
    exact ⟨ratioOfLum_ge_one _ _ (lumOf_nonneg A) (lumOf_nonneg B),
      ratioOfLum_le_21 _ _ (lumOf_nonneg A) (lumOf_le_one A)
        (lumOf_nonneg B) (lumOf_le_one B)⟩
  · have hw : hex_to_rgb "#FFFFFF" = (255, 255, 255) := by decide
    have hb : hex_to_rgb "#000000" = (0, 0, 0) := by decide
    have h1 : lumOf "#FFFFFF" = 1 := by
      unfold lumOf
      rw [hw]
      norm_num [get_luminance_white]
    have h2 : lumOf "#000000" = 0 := by
      unfold lumOf
      rw [hb]
      norm_num [get_luminance_black]
    rw [get_contrast_ratio_eq, h1, h2]
    unfold ratioOfLum
    norm_num

theorem contrast_ratio_range_and_extremes_witness :
    1 ≤ get_contrast_ratio "#1a2b3c" "#ffffff" ∧
    get_contrast_ratio "#1a2b3c" "#ffffff" ≤ 21 :=
  contrast_ratio_range_and_extremes.1 "#1a2b3c" "#ffffff" (by decide) (by decide)

/-! ### Claim C2: foreground selection -/

/-- Claim C2 counterexample: the selection rule of source line 185 uses the
strict comparison `fg_white > fg_black` with white in the then-branch, so on
exactly equal contrast ratios it chooses black, not white as claimed. -/
theorem chooseForeground_tie_is_black :
    chooseForeground 1 1 = Fg.black ∧ Fg.black ≠ Fg.white := by
  refine ⟨?_, by decide⟩
  unfold chooseForeground
  norm_num

/-- Claim C2 as amended: the chosen foreground is white exactly when its
contrast ratio is strictly larger than black's, and black otherwise — in
particular, on exact ties black is chosen. -/
theorem chooseForeground_strict_rule (fg_white fg_black : ℝ) :
    (fg_black < fg_white → chooseForeground fg_white fg_black = Fg.white) ∧
    (fg_white ≤ fg_black → chooseForeground fg_white fg_black = Fg.black) := by
  unfold chooseForeground
  constructor
  · intro h
    rw [if_pos h]
  · intro h
    rw [if_neg (not_lt.mpr h)]

theorem chooseForeground_strict_rule_witness :
    chooseForeground 2 1 = Fg.white ∧ chooseForeground 1 2 = Fg.black :=
  ⟨(chooseForeground_strict_rule 2 1).1 (by norm_num),
    (chooseForeground_strict_rule 1 2).2 (by norm_num)⟩

/-! ### The sampling loop -/

lemma lab_distance_symm (p q : ℝ × ℝ × ℝ) : lab_distance p q = lab_distance q p := by
  unfold lab_distance
  congr 1
  ring

/-- when already enough colors were accepted (or `n ≤ 0`), the loop exits at
once, whatever fuel remains. -/
lemma genLoop_exit (n : ℤ) (minD minC : ℝ) (sample : ℕ → ℝ × ℝ × ℝ)
    (cs : List Entry) (h : ¬ (cs.length : ℤ) < n) :
    ∀ fuel att, genLoop n minD minC sample fuel att cs = (cs, att) := by
  intro fuel att
  cases fuel with
  | zero => rfl
  | succ f =>
    simp only [genLoop]
    rw [if_neg h]

/-- a validated candidate keeps the configured LAB distance to every accepted
color (source lines 133-135). -/
lemma is_valid_dist (n : ℤ) (minD minC : ℝ) (lab : ℝ × ℝ × ℝ) (rgb : ℤ × ℤ × ℤ)
    (cs : List Entry) (h : is_valid_color n minD minC lab rgb cs = true) :
    ∀ e ∈ cs, minD ≤ lab_distance lab e.lab := by
  unfold is_valid_color at h
  split_ifs at h with hg
  intro e he
  rw [List.all_eq_true] at h
  have hh := of_decide_eq_true (h e he)
  exact not_lt.mp hh.1

/-- any property of the accepted list that survives one acceptance step is an
invariant of the whole loop. -/
lemma genLoop_invariant (n : ℤ) (minD minC : ℝ) (sample : ℕ → ℝ × ℝ × ℝ)
    (P : List Entry → Prop)
    (hstep : ∀ (cs : List Entry) (lab : ℝ × ℝ × ℝ) (rgb : ℤ × ℤ × ℤ),
      P cs →
      is_valid_color n minD minC lab rgb cs = true →
      ¬ (n ≤ 10 ∧ max (get_contrast_ratio (rgb_to_hex rgb) "#FFFFFF")
            (get_contrast_ratio (rgb_to_hex rgb) "#000000") < min_fg_contrast n) →
      P (cs ++ [⟨lab, rgb,
        chooseForeground (get_contrast_ratio (rgb_to_hex rgb) "#FFFFFF")
          (get_contrast_ratio (rgb_to_hex rgb) "#000000")⟩])) :
    ∀ fuel att cs, P cs → P (genLoop n minD minC sample fuel att cs).1 := by
  intro fuel
  induction fuel with
  | zero => intro att cs h; exact h
  | succ f ih =>
    intro att cs h
    simp only [genLoop]
    split_ifs with h1 h2 h3
    · exact ih _ _ h
    · exact ih _ _ (hstep cs _ _ h h2 h3)
    · exact ih _ _ h
    · exact h

/-- the contrast of a background against its chosen foreground is exactly the
larger of its white- and black-contrast ratios. -/
lemma foreground_contrast_eq_max (rgb : ℤ × ℤ × ℤ) :
    get_contrast_ratio (rgb_to_hex rgb)
        (fgHex (chooseForeground (get_contrast_ratio (rgb_to_hex rgb) "#FFFFFF")
          (get_contrast_ratio (rgb_to_hex rgb) "#000000"))) =
      max (get_contrast_ratio (rgb_to_hex rgb) "#FFFFFF")
        (get_contrast_ratio (rgb_to_hex rgb) "#000000") := by
  unfold chooseForeground
  split_ifs with h
  · rw [fgHex, max_eq_left h.le]
  · rw [fgHex, max_eq_right (not_lt.mp h)]

/-- attempt accounting of the loop: the final attempt count never exceeds the
starting count plus the fuel; the loop ends with exactly `n` accepted colors
or with the fuel (attempt budget) used up; and, provided it starts below the
target, the accepted list never outgrows `n`. -/
lemma genLoop_count (n : ℤ) (minD minC : ℝ) (sample : ℕ → ℝ × ℝ × ℝ) :
    ∀ fuel att cs, (cs.length : ℤ) ≤ n →
      (genLoop n minD minC sample fuel att cs).2 ≤ att + fuel ∧
      (((genLoop n minD minC sample fuel att cs).1.length : ℤ) = n ∨
        (genLoop n minD minC sample fuel att cs).2 = att + fuel) ∧
      ((genLoop n minD minC sample fuel att cs).1.length : ℤ) ≤ n := by
  intro fuel
  induction fuel with
  | zero =>
    intro att cs h
    simp only [genLoop]
    exact ⟨Nat.le_add_right _ _, Or.inr rfl, h⟩
  | succ f ih =>
    intro att cs h
    simp only [genLoop]
    rw [show att + (f + 1) = (att + 1) + f by omega]
    split_ifs with h1 h2 h3
    · exact ih (att + 1) cs h
    · refine ih (att + 1) _ ?_
      rw [List.length_append, List.length_singleton]
      push_cast
      omega
    · exact ih (att + 1) cs h
    · dsimp only
      exact ⟨by omega, Or.inl (by omega), h⟩

/-! ### Claims C5, C6, C7, C8: palette invariants and the attempt budget -/

/-- Claim C5: every pair of distinct accepted backgrounds keeps LAB Euclidean
distance at least the minimum distance in effect — the supplied
`min_distance`, or the tier default (30 for n ≤ 5, 20 for 5 < n ≤ 10,
`max(10, 30 - (n - 10))` otherwise). -/
theorem palette_pairwise_min_distance (n : ℤ) (md : Option ℝ) (mc : ℝ)
    (sample : ℕ → ℝ × ℝ × ℝ) :
    (genColors n md mc sample).1.Pairwise
      (fun a b => effective_min_distance n md ≤ lab_distance a.lab b.lab) ∧
    (∀ d : ℝ, effective_min_distance n (some d) = d) ∧
    (n ≤ 5 → effective_min_distance n none = 30) ∧
    (5 < n → n ≤ 10 → effective_min_distance n none = 20) ∧
    (10 < n → effective_min_distance n none = max 10 (30 - ((n : ℝ) - 10))) := by
  refine ⟨?_, fun d => rfl, ?_, ?_, ?_⟩
  · unfold genColors
    refine genLoop_invariant n _ mc sample _ ?_ max_attempts 0 [] List.Pairwise.nil
    intro cs lab rgb hP hvalid _
    rw [List.pairwise_append]
    refine ⟨hP, List.pairwise_singleton _ _, ?_⟩
    intro a ha b hb
    rw [List.mem_singleton] at hb
    subst hb
    rw [lab_distance_symm]
    exact is_valid_dist _ _ _ _ _ _ hvalid a ha
  · intro h5
    unfold effective_min_distance auto_min_distance
    rw [if_pos h5]
  · intro h5 h10
    unfold effective_min_distance auto_min_distance
    rw [if_neg (by omega), if_pos h10]
  · intro h10
    unfold effective_min_distance auto_min_distance
    rw [if_neg (by omega), if_neg (by omega)]

theorem palette_pairwise_min_distance_witness :
    (genColors 7 none 1.5 (fun _ => (0, 0, 0))).1.Pairwise
      (fun a b => effective_min_distance 7 none ≤ lab_distance a.lab b.lab) ∧
    effective_min_distance 7 (some 12) = 12 ∧
    effective_min_distance 3 none = 30 ∧
    effective_min_distance 7 none = 20 ∧
    effective_min_distance 15 none = max 10 (30 - ((15 : ℝ) - 10)) :=
  ⟨(palette_pairwise_min_distance 7 none 1.5 (fun _ => (0, 0, 0))).1,
    (palette_pairwise_min_distance 7 none 1.5 (fun _ => (0, 0, 0))).2.1 12,
    (palette_pairwise_min_distance 3 none 1.5 (fun _ => (0, 0, 0))).2.2.1 (by norm_num),
    (palette_pairwise_min_distance 7 none 1.5 (fun _ => (0, 0, 0))).2.2.2.1
      (by norm_num) (by norm_num),
    (palette_pairwise_min_distance 15 none 1.5 (fun _ => (0, 0, 0))).2.2.2.2 (by norm_num)⟩

/-- Claim C6: in every palette generated with 5 < n ≤ 10, every accepted
entry's background has contrast ratio at least 4.5 against its assigned
foreground (the gate of source lines 187-192 discards any candidate whose
better foreground contrast is below 4.5, and the assigned foreground attains
that better value). -/
theorem palette_foreground_contrast_medium (n : ℤ) (md : Option ℝ) (mc : ℝ)
    (sample : ℕ → ℝ × ℝ × ℝ) (h5 : 5 < n) (h10 : n ≤ 10) :
    (genColors n md mc sample).1.Forall
      (fun e => 4.5 ≤ get_contrast_ratio (rgb_to_hex e.rgb) (fgHex e.fg)) := by
  unfold genColors
  refine genLoop_invariant n _ mc sample _ ?_ max_attempts 0 [] trivial
  intro cs lab rgb hP hvalid hgate
  rw [List.forall_iff_forall_mem] at hP ⊢
  intro e he
  rw [List.mem_append, List.mem_singleton] at he
  rcases he with he | he
  · exact hP e he
  · subst he
    simp only
    rw [foreground_contrast_eq_max]
    rw [not_and_or] at hgate
    rcases hgate with hgate | hgate
    · exact absurd h10 hgate
    · unfold min_fg_contrast at hgate
      rw [if_pos h5] at hgate
      exact not_lt.mp hgate

theorem palette_foreground_contrast_medium_witness :
    (genColors 7 none 1.5 (fun _ => (0, 0, 0))).1.Forall
      (fun e => 4.5 ≤ get_contrast_ratio (rgb_to_hex e.rgb) (fgHex e.fg)) :=
  palette_foreground_contrast_medium 7 none 1.5 (fun _ => (0, 0, 0))
    (by norm_num) (by norm_num)

/-- Claim C7: for n ≤ 0 the loop condition `len(colors) < n` fails at once, so
an empty sequence is returned, and the warning (printed only when fewer than
`n` colors were produced, i.e. when `0 < n`) is not emitted. -/
theorem generate_nonpositive_empty_no_warning (n : ℤ) (h : n ≤ 0) (md : Option ℝ)
    (mc : ℝ) (sample : ℕ → ℝ × ℝ × ℝ) :
    generate_distinct_colors n md mc sample = [] ∧
    generate_warns n md mc sample = false := by
  have hg : genColors n md mc sample = ([], 0) := by
    unfold genColors
    exact genLoop_exit _ _ _ _ _ (by simp; omega) _ _
  constructor
  · unfold generate_distinct_colors
    rw [hg]
    rfl
  · unfold generate_warns
    rw [hg]
    dsimp only
    simp only [List.length_nil, Nat.cast_zero, decide_eq_false_iff_not, not_lt]
    exact h

theorem generate_nonpositive_empty_no_warning_witness :
    generate_distinct_colors (-3) none 1.5 (fun _ => (0, 0, 0)) = [] ∧
    generate_warns (-3) none 1.5 (fun _ => (0, 0, 0)) = false :=
  generate_nonpositive_empty_no_warning (-3) (by norm_num) none 1.5 (fun _ => (0, 0, 0))

/-- Claim C8 counterexample: at n = -1 the loop exits immediately with an
empty list and 0 attempts, so neither "exactly n colors accepted" nor "10000
attempts spent" holds, and the returned sequence (length 0) has more than n
entries — the claim fails for negative n. -/
theorem generate_negative_n_violates_bounds :
    genColors (-1) none 1.5 (fun _ => (0, 0, 0)) = ([], 0) ∧
    ¬ ((((genColors (-1) none 1.5 (fun _ => (0, 0, 0))).1.length : ℤ) = -1) ∨
        (genColors (-1) none 1.5 (fun _ => (0, 0, 0))).2 = max_attempts) ∧
    ¬ (((generate_distinct_colors (-1) none 1.5 (fun _ => (0, 0, 0))).length : ℤ) ≤ -1) := by
  have hg : genColors (-1) none 1.5 (fun _ => (0, 0, 0)) = ([], 0) := by
    unfold genColors
    exact genLoop_exit _ _ _ _ _ (by simp) _ _
  refine ⟨hg, ?_, ?_⟩
  · rw [hg]
    simp [max_attempts]
  · unfold generate_distinct_colors
    rw [hg]
    simp

/-- Claim C8 as amended (restricted to n ≥ 0, the counterexample forces the
restriction): the loop runs at most 10000 iterations, the attempt counter
growing by one each iteration, ending with exactly `n` accepted colors or
with 10000 attempts spent, and the returned sequence never has more than `n`
entries. -/
theorem generate_loop_bounds (n : ℤ) (h : 0 ≤ n) (md : Option ℝ) (mc : ℝ)
    (sample : ℕ → ℝ × ℝ × ℝ) :
    (genColors n md mc sample).2 ≤ max_attempts ∧
    (((genColors n md mc sample).1.length : ℤ) = n ∨
      (genColors n md mc sample).2 = max_attempts) ∧
    ((genColors n md mc sample).1.length : ℤ) ≤ n ∧
    ((generate_distinct_colors n md mc sample).length : ℤ) ≤ n := by
  have hmap : (generate_distinct_colors n md mc sample).length =
      (genColors n md mc sample).1.length := by
    unfold generate_distinct_colors
    rw [List.length_map]
  have hc := genLoop_count n (effective_min_distance n md) mc sample max_attempts 0 []
    (by simp; omega)
  unfold genColors
  refine ⟨by simpa using hc.1, by simpa using hc.2.1, by simpa using hc.2.2, ?_⟩
  rw [hmap]
  unfold genColors
  simpa using hc.2.2

theorem generate_loop_bounds_witness :
    (genColors 3 none 1.5 (fun _ => (0, 0, 0))).2 ≤ max_attempts ∧
    (((genColors 3 none 1.5 (fun _ => (0, 0, 0))).1.length : ℤ) = 3 ∨
      (genColors 3 none 1.5 (fun _ => (0, 0, 0))).2 = max_attempts) ∧
    ((genColors 3 none 1.5 (fun _ => (0, 0, 0))).1.length : ℤ) ≤ 3 ∧
    ((generate_distinct_colors 3 none 1.5 (fun _ => (0, 0, 0))).length : ℤ) ≤ 3 :=
  generate_loop_bounds 3 (by norm_num) none 1.5 (fun _ => (0, 0, 0))

/-! ### Claim C3: the round trip RGB → XYZ → LAB → XYZ → RGB -/

/-- from `q^5 ≤ b^12` (nonneg) conclude `q ≤ b ^ 2.4`: turns bounds on real
powers with exponent 2.4 = 12/5 into decidable rational-power inequalities. -/
lemma le_rpow_of_pow_le {b q : ℝ} (hb : 0 ≤ b) (hq : 0 ≤ q)
    (h : q ^ (5 : ℕ) ≤ b ^ (12 : ℕ)) : q ≤ b ^ (2.4 : ℝ) := by
  have hy : (b ^ (2.4 : ℝ)) ^ (5 : ℕ) = b ^ (12 : ℕ) := by
    rw [← Real.rpow_natCast (b ^ (2.4 : ℝ)) 5, ← Real.rpow_mul hb,
      show (2.4 : ℝ) * ((5 : ℕ) : ℝ) = ((12 : ℕ) : ℝ) by norm_num,
      Real.rpow_natCast]
  have h5 : q ^ (5 : ℕ) ≤ (b ^ (2.4 : ℝ)) ^ (5 : ℕ) := by
    rw [hy]
    exact h
  exact le_of_pow_le_pow_left (by norm_num) (Real.rpow_nonneg hb _) h5

/-- the thresholds 0.008856 (forward) and 0.206893 (inverse) are exactly
compatible: `f_inv (f t) = t` for every nonnegative `t`. On the linear side,
`7.787 * 0.008856 + 16/116 < 0.206893`; on the cube side,
`0.206893 ^ 3 < 0.008856`. -/
lemma labFinv_labF (t : ℝ) (ht : 0 ≤ t) : labFinv (labF t) = t := by
  unfold labF
  split_ifs with h
  · have h3 : (t ^ ((1 : ℝ)/3)) ^ (3 : ℕ) = t := by
      rw [show ((1 : ℝ)/3) = ((3 : ℕ) : ℝ)⁻¹ by norm_num]
      exact Real.rpow_inv_natCast_pow ht (by norm_num)
    have hgt : t ^ ((1 : ℝ)/3) > 0.206893 := by
      by_contra hle
      push_neg at hle
      have hc := pow_le_pow_left (Real.rpow_nonneg ht _) hle 3
      rw [h3] at hc
      norm_num at hc
      linarith
    unfold labFinv
    rw [if_pos hgt, h3]
  · push_neg at h
    have hle : ¬ (7.787 * t + 16/116 > 0.206893) := by
      push_neg
      linarith
    unfold labFinv
    rw [if_neg hle]
    field_simp

/-- `lab_to_xyz` inverts `xyz_to_lab` exactly on nonnegative XYZ triples. -/
lemma lab_xyz_roundtrip (x y z : ℝ) (hx : 0 ≤ x) (hy : 0 ≤ y) (hz : 0 ≤ z) :
    lab_to_xyz (xyz_to_lab x y z).1 (xyz_to_lab x y z).2.1 (xyz_to_lab x y z).2.2 =
      (x, y, z) := by
  simp only [xyz_to_lab, lab_to_xyz]
  have e1 : (116 * labF (y / 100.0) - 16 + 16) / 116 = labF (y / 100.0) := by ring
  rw [e1]
  have e2 : 500 * (labF (x / 95.047) - labF (y / 100.0)) / 500 + labF (y / 100.0) =
      labF (x / 95.047) := by ring
  rw [e2]
  have e3 : labF (y / 100.0) - 200 * (labF (y / 100.0) - labF (z / 108.883)) / 200 =
      labF (z / 108.883) := by ring
  rw [e3]
  rw [labFinv_labF _ (by positivity), labFinv_labF _ (by positivity),
    labFinv_labF _ (by positivity)]
  simp only [Prod.mk.injEq]
  refine ⟨by field_simp, by field_simp, by field_simp⟩

lemma srgbExpand_nonneg (v : ℝ) (h0 : 0 ≤ v) : 0 ≤ srgbExpand v := by
  unfold srgbExpand
  split_ifs with h
  · exact Real.rpow_nonneg (by positivity) _
  · positivity

lemma srgbExpand_le_one (v : ℝ) (h0 : 0 ≤ v) (h1 : v ≤ 1) : srgbExpand v ≤ 1 := by
  unfold srgbExpand
  split_ifs with h
  · exact Real.rpow_le_one (by positivity)
      (by rw [div_le_one (by norm_num)]; linarith) (by norm_num)
  · rw [div_le_one (by norm_num)]
    linarith

/-- core of the round trip: `to_srgb` inverts `srgbExpand` on exact channel
values `v/255` (the compression thresholds 0.04045 and 0.0031308 agree on
which of the 256 channel values take which branch), and it is tame enough
that a perturbation of the linear value by at most 5e-7 still rounds back to
the original channel. -/
lemma chan_recovers (v : ℕ) (hv : v ≤ 255) (c : ℝ)
    (hc : |c - srgbExpand ((v : ℝ)/255)| ≤ 0.0000005) : chan c = (v : ℤ) := by
  have hv255 : (v : ℝ) ≤ 255 := by exact_mod_cast hv
  have hv0 : (0 : ℝ) ≤ (v : ℝ) := by positivity
  rcases abs_le.mp hc with ⟨hlo, hhi⟩
  refine chan_eq_of_close (v : ℤ) (by positivity) (by exact_mod_cast hv) c ?_
  push_cast
  by_cases hsmall : v ≤ 10
  · -- small channels: both branches are linear, the inverse is exact
    have hv10 : (v : ℝ) ≤ 10 := by exact_mod_cast hsmall
    have hu : ¬ ((v : ℝ)/255 > 0.04045) := by
      push_neg
      rw [div_le_iff (by norm_num)]
      linarith
    have hexp : srgbExpand ((v : ℝ)/255) = (v : ℝ) * (5/16473) := by
      unfold srgbExpand
      rw [if_neg hu]
      norm_num
      ring
    rw [hexp] at hlo hhi
    have hcle : ¬ (c > 0.0031308) := by
      push_neg
      linarith
    unfold to_srgb
    rw [if_neg hcle, abs_lt]
    constructor <;> linarith
  · -- large channels: both branches are the gamma power, inverted exactly,
    -- and the power map is tame on linear values ≥ 0.0033
    push_neg at hsmall
    have hv11 : (11 : ℝ) ≤ (v : ℝ) := by exact_mod_cast hsmall
    have hu : (v : ℝ)/255 > 0.04045 := by
      rw [gt_iff_lt, lt_div_iff (by norm_num)]
      linarith
    have hexp : srgbExpand ((v : ℝ)/255) =
        ((v : ℝ) * (40/10761) + 11/211) ^ (2.4 : ℝ) := by
      unfold srgbExpand
      rw [if_pos hu]
      congr 1
      norm_num
      ring
    rw [hexp] at hlo hhi
    set base : ℝ := (v : ℝ) * (40/10761) + 11/211 with hbase
    have hbase0 : 0 < base := by
      rw [hbase]
      positivity
    have hbase_lo : (0.0930 : ℝ) ≤ base := by
      rw [hbase]
      linarith
    have hbase_le : base ≤ 1 := by
      rw [hbase]
      linarith
    have hlin_lo : (0.0033 : ℝ) ≤ base ^ (2.4 : ℝ) := by
      have h1 : (0.0033 : ℝ) ≤ (0.0930 : ℝ) ^ (2.4 : ℝ) :=
        le_rpow_of_pow_le (by norm_num) (by norm_num) (by norm_num)
      have h2 : (0.0930 : ℝ) ^ (2.4 : ℝ) ≤ base ^ (2.4 : ℝ) :=
        Real.rpow_le_rpow (by norm_num) hbase_lo (by norm_num)
      linarith
    have hc_pos : c > 0.0031308 := by linarith
    have hc0 : (0 : ℝ) ≤ c := by linarith
    have hbb : (base ^ (2.4 : ℝ)) ^ ((1 : ℝ)/2.4) = base := by
      rw [← Real.rpow_mul hbase0.le, show (2.4 : ℝ) * (1/2.4) = 1 by norm_num,
        Real.rpow_one]
    -- upper bound on the compressed value
    have hup : c ^ ((1 : ℝ)/2.4) ≤ base * (1 + 0.00016) := by
      have hcle : c ≤ (base ^ (2.4 : ℝ)) * (1 + 0.00016) := by nlinarith
      have s1 : c ^ ((1 : ℝ)/2.4) ≤
          ((base ^ (2.4 : ℝ)) * (1 + 0.00016)) ^ ((1 : ℝ)/2.4) :=
        Real.rpow_le_rpow hc0 hcle (by norm_num)
      have s2 : ((base ^ (2.4 : ℝ)) * (1 + 0.00016)) ^ ((1 : ℝ)/2.4) =
          (base ^ (2.4 : ℝ)) ^ ((1 : ℝ)/2.4) * (1 + 0.00016) ^ ((1 : ℝ)/2.4) :=
        Real.mul_rpow (Real.rpow_nonneg hbase0.le _) (by norm_num)
      have s3 : ((1 : ℝ) + 0.00016) ^ ((1 : ℝ)/2.4) ≤ (1 + 0.00016 : ℝ) := by
        have h4 := Real.rpow_le_rpow_of_exponent_le
          (show (1 : ℝ) ≤ 1 + 0.00016 by norm_num)
          (show (1 : ℝ)/2.4 ≤ 1 by norm_num)
        rw [Real.rpow_one] at h4
        exact h4
      rw [s2, hbb] at s1
      have h5 := mul_le_mul_of_nonneg_left s3 hbase0.le
      linarith
    -- lower bound on the compressed value
    have hdown : base * (1 - 0.00016) ≤ c ^ ((1 : ℝ)/2.4) := by
      have hcge : (base ^ (2.4 : ℝ)) * (1 - 0.00016) ≤ c := by nlinarith
      have s3 : ((1 : ℝ) - 0.00016) ≤ ((1 : ℝ) - 0.00016) ^ ((1 : ℝ)/2.4) := by
        have h4 := Real.rpow_le_rpow_of_exponent_ge
          (show (0 : ℝ) < 1 - 0.00016 by norm_num)
          (show (1 : ℝ) - 0.00016 ≤ 1 by norm_num)
          (show (1 : ℝ)/2.4 ≤ 1 by norm_num)
        rw [Real.rpow_one] at h4
        exact h4
      have s2 : (base ^ (2.4 : ℝ)) ^ ((1 : ℝ)/2.4) * ((1 - 0.00016 : ℝ) ^ ((1 : ℝ)/2.4)) =
          ((base ^ (2.4 : ℝ)) * (1 - 0.00016)) ^ ((1 : ℝ)/2.4) :=
        (Real.mul_rpow (Real.rpow_nonneg hbase0.le _) (by norm_num)).symm
      have s1 : ((base ^ (2.4 : ℝ)) * (1 - 0.00016)) ^ ((1 : ℝ)/2.4) ≤ c ^ ((1 : ℝ)/2.4) :=
        Real.rpow_le_rpow (by positivity) hcge (by norm_num)
      have s4 := mul_le_mul_of_nonneg_left s3
        (Real.rpow_nonneg (Real.rpow_nonneg hbase0.le (2.4 : ℝ)) ((1 : ℝ)/2.4))
      rw [s2, hbb] at s4
      linarith
    -- the original channel value is exactly the unperturbed compression
    have hv_eq : (v : ℝ) = 255 * (1.055 * base - 0.055) := by
      rw [hbase]
      ring
    unfold to_srgb
    rw [if_pos hc_pos, abs_lt]
    constructor <;> linarith

/-- the two fixed sRGB matrices written in the source are inverse to within
2.8e-7 per row, so feeding `rgb_to_xyz`'s XYZ output back through the linear
stage of `xyz_to_rgb` recovers each linear channel to within 5e-7. -/
lemma matrix_roundtrip_err (lr lg lb : ℝ) (h1 : 0 ≤ lr) (h2 : lr ≤ 1)
    (h3 : 0 ≤ lg) (h4 : lg ≤ 1) (h5 : 0 ≤ lb) (h6 : lb ≤ 1) :
    |rLin ((lr * 0.4124564 + lg * 0.3575761 + lb * 0.1804375) * 100)
        ((lr * 0.2126729 + lg * 0.7151522 + lb * 0.0721750) * 100)
        ((lr * 0.0193339 + lg * 0.1191920 + lb * 0.9503041) * 100) - lr| ≤ 0.0000005 ∧
    |gLin ((lr * 0.4124564 + lg * 0.3575761 + lb * 0.1804375) * 100)
        ((lr * 0.2126729 + lg * 0.7151522 + lb * 0.0721750) * 100)
        ((lr * 0.0193339 + lg * 0.1191920 + lb * 0.9503041) * 100) - lg| ≤ 0.0000005 ∧
    |bLin ((lr * 0.4124564 + lg * 0.3575761 + lb * 0.1804375) * 100)
        ((lr * 0.2126729 + lg * 0.7151522 + lb * 0.0721750) * 100)
        ((lr * 0.0193339 + lg * 0.1191920 + lb * 0.9503041) * 100) - lb| ≤ 0.0000005 := by
  refine ⟨?_, ?_, ?_⟩
  · have hr : rLin ((lr * 0.4124564 + lg * 0.3575761 + lb * 0.1804375) * 100)
        ((lr * 0.2126729 + lg * 0.7151522 + lb * 0.0721750) * 100)
        ((lr * 0.0193339 + lg * 0.1191920 + lb * 0.9503041) * 100) - lr =
        (0.4124564 * 3.2404542 - 0.2126729 * 1.5371385 - 0.0193339 * 0.4985314 - 1) * lr +
        (0.3575761 * 3.2404542 - 0.7151522 * 1.5371385 - 0.1191920 * 0.4985314) * lg +
        (0.1804375 * 3.2404542 - 0.0721750 * 1.5371385 - 0.9503041 * 0.4985314) * lb := by
      unfold rLin
      ring
    rw [abs_le, hr]
    constructor <;> linarith
  · have hgr : gLin ((lr * 0.4124564 + lg * 0.3575761 + lb * 0.1804375) * 100)
        ((lr * 0.2126729 + lg * 0.7151522 + lb * 0.0721750) * 100)
        ((lr * 0.0193339 + lg * 0.1191920 + lb * 0.9503041) * 100) - lg =
        (-(0.4124564 * 0.9692660) + 0.2126729 * 1.8760108 + 0.0193339 * 0.0415560) * lr +
        (-(0.3575761 * 0.9692660) + 0.7151522 * 1.8760108 + 0.1191920 * 0.0415560 - 1) * lg +
        (-(0.1804375 * 0.9692660) + 0.0721750 * 1.8760108 + 0.9503041 * 0.0415560) * lb := by
      unfold gLin
      ring
    rw [abs_le, hgr]
    constructor <;> linarith
  · have hbr : bLin ((lr * 0.4124564 + lg * 0.3575761 + lb * 0.1804375) * 100)
        ((lr * 0.2126729 + lg * 0.7151522 + lb * 0.0721750) * 100)
        ((lr * 0.0193339 + lg * 0.1191920 + lb * 0.9503041) * 100) - lb =
        (0.4124564 * 0.0556434 - 0.2126729 * 0.2040259 + 0.0193339 * 1.0572252) * lr +
        (0.3575761 * 0.0556434 - 0.7151522 * 0.2040259 + 0.1191920 * 1.0572252) * lg +
        (0.1804375 * 0.0556434 - 0.0721750 * 0.2040259 + 0.9503041 * 1.0572252 - 1) * lb := by
      unfold bLin
      ring
    rw [abs_le, hbr]
    constructor <;> linarith

/-- `rgb_to_xyz` written without its intermediate lets. -/
lemma rgb_to_xyz_eq (r g b : ℝ) : rgb_to_xyz r g b =
    ((srgbExpand (r/255) * 0.4124564 + srgbExpand (g/255) * 0.3575761 +
        srgbExpand (b/255) * 0.1804375) * 100,
     (srgbExpand (r/255) * 0.2126729 + srgbExpand (g/255) * 0.7151522 +
        srgbExpand (b/255) * 0.0721750) * 100,
     (srgbExpand (r/255) * 0.0193339 + srgbExpand (g/255) * 0.1191920 +
        srgbExpand (b/255) * 0.9503041) * 100) := rfl

/-- the round trip is in fact exact on every integer RGB triple: the
XYZ → LAB → XYZ leg is an exact inverse, and the residual error of the two
matrices (≤ 5e-7 on each linear channel) is absorbed by the rounding. -/
lemma round_trip_exact (r g b : ℕ) (hr : r ≤ 255) (hg : g ≤ 255) (hb : b ≤ 255) :
    round_trip (r : ℝ) (g : ℝ) (b : ℝ) = ((r : ℤ), (g : ℤ), (b : ℤ)) := by
  have hr1 : (r : ℝ)/255 ≤ 1 := by
    rw [div_le_one (by norm_num)]
    exact_mod_cast hr
  have hg1 : (g : ℝ)/255 ≤ 1 := by
    rw [div_le_one (by norm_num)]
    exact_mod_cast hg
  have hb1 : (b : ℝ)/255 ≤ 1 := by
    rw [div_le_one (by norm_num)]
    exact_mod_cast hb
  have hlr0 : 0 ≤ srgbExpand ((r : ℝ)/255) := srgbExpand_nonneg _ (by positivity)
  have hlr1 : srgbExpand ((r : ℝ)/255) ≤ 1 := srgbExpand_le_one _ (by positivity) hr1
  have hlg0 : 0 ≤ srgbExpand ((g : ℝ)/255) := srgbExpand_nonneg _ (by positivity)
  have hlg1 : srgbExpand ((g : ℝ)/255) ≤ 1 := srgbExpand_le_one _ (by positivity) hg1
  have hlb0 : 0 ≤ srgbExpand ((b : ℝ)/255) := srgbExpand_nonneg _ (by positivity)
  have hlb1 : srgbExpand ((b : ℝ)/255) ≤ 1 := srgbExpand_le_one _ (by positivity) hb1
  obtain ⟨e1, e2, e3⟩ := matrix_roundtrip_err (srgbExpand ((r : ℝ)/255))
    (srgbExpand ((g : ℝ)/255)) (srgbExpand ((b : ℝ)/255)) hlr0 hlr1 hlg0 hlg1 hlb0 hlb1
  unfold round_trip
  rw [rgb_to_xyz_eq]
  dsimp only
  rw [lab_xyz_roundtrip _ _ _ (by nlinarith) (by nlinarith) (by nlinarith)]
  dsimp only
  unfold xyz_to_rgb
  simp only [Prod.mk.injEq]
  exact ⟨chan_recovers r hr _ e1, chan_recovers g hg _ e2, chan_recovers b hb _ e3⟩

/-- Claim C3: for every RGB triple with integer channels in [0, 255], the
composition `xyz_to_rgb (lab_to_xyz (xyz_to_lab (rgb_to_xyz r g b)))`
returns channel values differing from the originals by at most 1 per channel
(in exact real arithmetic the recovery is exact, so the difference is 0). -/
theorem rgb_round_trip_within_one (r g b : ℕ) (hr : r ≤ 255) (hg : g ≤ 255)
    (hb : b ≤ 255) :
    |(round_trip (r : ℝ) (g : ℝ) (b : ℝ)).1 - (r : ℤ)| ≤ 1 ∧
    |(round_trip (r : ℝ) (g : ℝ) (b : ℝ)).2.1 - (g : ℤ)| ≤ 1 ∧
    |(round_trip (r : ℝ) (g : ℝ) (b : ℝ)).2.2 - (b : ℤ)| ≤ 1 := by
  rw [round_trip_exact r g b hr hg hb]
  dsimp only
  simp

theorem rgb_round_trip_within_one_witness :
    |(round_trip ((65 : ℕ) : ℝ) ((105 : ℕ) : ℝ) ((225 : ℕ) : ℝ)).1 - ((65 : ℕ) : ℤ)| ≤ 1 ∧
    |(round_trip ((65 : ℕ) : ℝ) ((105 : ℕ) : ℝ) ((225 : ℕ) : ℝ)).2.1 - ((105 : ℕ) : ℤ)| ≤ 1 ∧
    |(round_trip ((65 : ℕ) : ℝ) ((105 : ℕ) : ℝ) ((225 : ℕ) : ℝ)).2.2 - ((225 : ℕ) : ℤ)| ≤ 1 :=
  rgb_round_trip_within_one 65 105 225 (by norm_num) (by norm_num) (by norm_num)

/-! ### Claim C1: gamut handling -/

/-- Claim C1 counterexample: the out-of-gamut candidate LAB = (50, -128, 0)
(a maximally green point) has a pre-round red channel below 0 — its
LAB → XYZ → RGB conversion leaves the RGB cube before rounding — yet
`is_valid_color` does not reject it (here against an empty accepted list,
where only the gamut check applies): `xyz_to_rgb` has already clamped every
channel into [0, 255], so the gamut check of source line 129 never fires. -/
theorem out_of_gamut_candidate_not_rejected :
    to_srgb (rLin (lab_to_xyz 50 (-128) 0).1 (lab_to_xyz 50 (-128) 0).2.1
        (lab_to_xyz 50 (-128) 0).2.2) < 0 ∧
    is_valid_color 12 30 1.5 (50, -128, 0)
      (xyz_to_rgb (lab_to_xyz 50 (-128) 0).1 (lab_to_xyz 50 (-128) 0).2.1
        (lab_to_xyz 50 (-128) 0).2.2) [] = true := by
  constructor
  · norm_num [lab_to_xyz, labFinv, rLin, to_srgb]
  · unfold is_valid_color xyz_to_rgb
    rw [if_neg]
    · rfl
    · dsimp only
      push_neg
      exact ⟨chan_nonneg _, chan_le_255 _, chan_nonneg _, chan_le_255 _,
        chan_nonneg _, chan_le_255 _⟩

/-- Claim C1 as amended: no candidate is ever rejected for being out of
gamut. `xyz_to_rgb` applies round-then-clamp to every channel of every
candidate (in- or out-of-gamut alike), so the converted RGB always lies in
[0, 255] and the gamut check inside `is_valid_color` always passes:
`is_valid_color` reduces to the distance/contrast checks alone. -/
theorem xyz_to_rgb_clamps_never_rejects (x y z : ℝ) :
    (0 ≤ (xyz_to_rgb x y z).1 ∧ (xyz_to_rgb x y z).1 ≤ 255) ∧
    (0 ≤ (xyz_to_rgb x y z).2.1 ∧ (xyz_to_rgb x y z).2.1 ≤ 255) ∧
    (0 ≤ (xyz_to_rgb x y z).2.2 ∧ (xyz_to_rgb x y z).2.2 ≤ 255) ∧
    ∀ (n : ℤ) (minD minC : ℝ) (lab : ℝ × ℝ × ℝ) (colors : List Entry),
      is_valid_color n minD minC lab (xyz_to_rgb x y z) colors =
        colors.all fun e => decide (¬ lab_distance lab e.lab < minD ∧
          (n ≤ 5 → ¬ get_contrast_ratio (rgb_to_hex (xyz_to_rgb x y z))
              (rgb_to_hex e.rgb) < minC)) := by
  refine ⟨⟨chan_nonneg _, chan_le_255 _⟩, ⟨chan_nonneg _, chan_le_255 _⟩,
    ⟨chan_nonneg _, chan_le_255 _⟩, ?_⟩
  intro n minD minC lab colors
  unfold is_valid_color xyz_to_rgb
  rw [if_neg]
  dsimp only
  push_neg
  exact ⟨chan_nonneg _, chan_le_255 _, chan_nonneg _, chan_le_255 _,
    chan_nonneg _, chan_le_255 _⟩

end

end ColorGenerator
